import Mathlib

/-!
Verification of the attribute-resolution engine of the `vega` host-information
reporter against its natural-language specification.  The Rust sources are
shallowly embedded: interface names are lists of characters, IP addresses are
tagged rendered strings, shell-command results and the OS process table are
explicit environments, and every embedded function is executable.
-/

/-- An IP address as the selector sees it: an address-family tag together with
the rendered string form (`IpAddr::to_string` in the source). -/
inductive IpAddr where
  | v4 (s : String)
  | v6 (s : String)
deriving DecidableEq

/-- Mirrors `IpAddr::is_ipv4`. -/
def IpAddr.is_ipv4 : IpAddr → Bool
  | .v4 _ => true
  | .v6 _ => false

/-- Mirrors `IpAddr::is_ipv6`. -/
def IpAddr.is_ipv6 : IpAddr → Bool
  | .v4 _ => false
  | .v6 _ => true

/-- Mirrors `IpAddr::to_string`: the rendered string form of the address. -/
def IpAddr.to_string : IpAddr → String
  | .v4 s => s
  | .v6 s => s

/-- The comparator passed to `addrs.sort_by` in `extract_ip`
(`individual_stats.rs` lines 161-169), branch for branch: `Less` when the left
address is IPv4 and the right one IPv6, `Greater` in the (unreachable) second
branch, `Equal` otherwise. -/
def ip_cmp (a b : IpAddr) : Ordering :=
  if a.is_ipv4 && b.is_ipv6 then .lt
  else if b.is_ipv6 && a.is_ipv4 then .gt
  else .eq

/-- One step of the stable insertion sort used to model Rust's
`slice::sort_by`: insert `x` into the reversed already-sorted prefix, shifting
it left while the comparator reports `Less` against the element before it,
exactly as the standard library's insertion loop does. -/
def insert_shift (lt : α → α → Bool) (x : α) : List α → List α
  | [] => [x]
  | y :: ys => if lt x y then y :: insert_shift lt x ys else x :: y :: ys

/-- One fold step of `rust_sort_by`: insert the next element into the sorted
prefix from the right. -/
def sort_step (cmp : α → α → Ordering) (acc : List α) (x : α) : List α :=
  (insert_shift (fun a b => cmp a b == Ordering.lt) x acc.reverse).reverse

/-- Model of Rust's stable `slice::sort_by` with the given comparator: the
driver only ever tests `cmp a b == Less`, and elements it considers tied stay
in their original order. -/
def rust_sort_by (cmp : α → α → Ordering) (l : List α) : List α :=
  l.foldl (sort_step cmp) []

/-- Mirrors the `extract_ip` closure of `get_ip_addr`
(`individual_stats.rs` lines 154-176): sort the interface's addresses with
`ip_cmp`, return `none` when there are no addresses, otherwise the rendered
form of the first address after sorting. -/
def extract_ip (addrs : List IpAddr) : Option String :=
  match rust_sort_by ip_cmp addrs with
  | [] => none
  | a :: _ => some a.to_string

/-- `u32::MAX`. -/
def u32MAX : Nat := 4294967295

/-- Mirrors Rust `str::starts_with` on character lists: does `s` start with
`p`? -/
def starts_with (p s : List Char) : Bool :=
  match p, s with
  | [], _ => true
  | _ :: _, [] => false
  | a :: ps, b :: ss => a == b && starts_with ps ss

/-- Mirrors `String::to_lowercase` for interface names. -/
def lower (name : List Char) : List Char :=
  name.map Char.toLower

/-- The body of the priority closure of `get_ip_addr`
(`individual_stats.rs` lines 183-218) after the name has been lowercased:
the ordered prefix checks and their scores, branch for branch. -/
def priority_score (nw_name : List Char) : Nat :=
  if starts_with "en".toList nw_name then 0
  else if starts_with "wl".toList nw_name then 1
  else if starts_with "wwan".toList nw_name then 2
  else if starts_with "tailscale".toList nw_name then u32MAX - 1
  else if starts_with "tun".toList nw_name then 1000
  else if starts_with "tap".toList nw_name then 1000
  else if starts_with "wg".toList nw_name then 1000
  else if starts_with "vpn".toList nw_name then 1000
  else if starts_with "nm".toList nw_name then 1001
  else if nw_name = "lo".toList then u32MAX
  else 69

/-- The priority closure of `get_ip_addr`: lowercase the interface name, then
apply the ordered prefix rules. -/
def priority (name : List Char) : Nat :=
  priority_score (lower name)

/-- Modelled from the spec: the repository's `SortByPriority` utility
(`src/utils/sort_by_priority.rs`, whose source is not among the files here)
sorts a list ascending by the priority key computed for each element, keeping
elements whose keys tie in their original enumeration order. -/
def sort_by_priority (key : α → Nat) (l : List α) : List α :=
  l.insertionSort (fun a b => key a ≤ key b)

/-- Mirrors `get_ip_addr` (`individual_stats.rs` lines 152-228) on a snapshot
of interfaces, each a name with its bound addresses: sort the interfaces by
the name-derived priority, return the first address extracted by
`extract_ip`, or the sentinel when no interface yields one. -/
def get_ip_addr (networks : List (List Char × List IpAddr)) : String :=
  match (sort_by_priority (fun nw => priority nw.1) networks).findSome?
      (fun nw => extract_ip nw.2) with
  | some ip => ip
  | none => "No Connection"

/-- The interface whose extracted address `get_ip_addr` returns: the first
interface, in priority order, whose address list yields a value. -/
def selected_interface (networks : List (List Char × List IpAddr)) :
    Option (List Char × List IpAddr) :=
  (sort_by_priority (fun nw => priority nw.1) networks).find?
    (fun nw => (extract_ip nw.2).isSome)

/-- Mirrors Rust `str::trim` on character lists: drop whitespace from both
ends. -/
def trim (s : List Char) : List Char :=
  ((s.dropWhile Char.isWhitespace).reverse.dropWhile Char.isWhitespace).reverse

/-- Mirrors Rust `str::ends_with` on character lists: does `s` end with
`suf`? -/
def ends_with (suf s : List Char) : Bool :=
  starts_with suf.reverse s.reverse

/-- Digit accumulator for `parse_int`: `none` as soon as a non-digit
appears. -/
def parse_digits : List Char → Nat → Option Nat
  | [], acc => some acc
  | c :: cs, acc =>
    if c.isDigit then parse_digits cs (acc * 10 + (c.toNat - 48)) else none

/-- Mirrors Rust `str::parse::<i32>` on character lists: an optional sign
followed by at least one digit; `none` is the parse error.  Real PIDs fit in
an `i32`, so the overflow failure of the Rust parse is not modelled. -/
def parse_int (s : List Char) : Option Int :=
  match s with
  | [] => none
  | '-' :: ds =>
    if ds = [] then none else (parse_digits ds 0).map (fun n => -(n : Int))
  | '+' :: ds =>
    if ds = [] then none else (parse_digits ds 0).map (fun n => Int.ofNat n)
  | ds => (parse_digits ds 0).map (fun n => Int.ofNat n)

/-- The OS process table as `get_terminal` and `get_shell` consult it through
`ps`: `comm pid` is the stdout of `ps -p pid -o comm=` and `ppid pid` the
stdout of `ps -p pid -o ppid=`. -/
structure ProcTable where
  comm : Int → List Char
  ppid : Int → List Char

/-- The next candidate PID of the ancestry walk
(`individual_stats.rs` lines 134-138): trim and parse the `ppid` lookup,
falling back to PID 1 when the parse fails. -/
def next_pid (t : ProcTable) (pid : Int) : Int :=
  (parse_int (trim (t.ppid pid))).getD 1

/-- Mirrors `get_terminal` (`individual_stats.rs` lines 129-143) with explicit
fuel standing for the number of loop iterations still allowed: while the
candidate's trimmed command name ends with "sh", move to the parent PID;
`none` means the fuel ran out before the loop finished. -/
def get_terminal (t : ProcTable) : Nat → Int → Option (List Char)
  | 0, _ => none
  | fuel + 1, pid =>
    if ends_with "sh".toList (trim (t.comm pid)) then
      get_terminal t fuel (next_pid t pid)
    else some (trim (t.comm pid))

/-- Mirrors `get_shell` (`individual_stats.rs` lines 146-149): the trimmed
command name of the immediate parent process. -/
def get_shell (t : ProcTable) (ppid : Int) : List Char :=
  trim (t.comm ppid)

/-- The result of one shell-command invocation, as the `sh!` macro returns
it. -/
structure ShellReturn where
  stdout : List Char
  stderr : List Char
  err_code : Nat
deriving DecidableEq

/-- The outcomes of every external probe `get_window_manager` can make:
`uname` output, the `XDG_CURRENT_DESKTOP` probe, availability of `fuser` and
`lsof`, their outputs on the Wayland socket, the `awk` first-field extraction,
`ps -o comm=` lookups, and the `pgrep` exit codes used on Darwin. -/
structure WmEnv where
  uname : List Char
  pgrep_err : List Char → Nat
  xdg_desktop : ShellReturn
  has_fuser : Bool
  has_lsof : Bool
  fuser_out : ShellReturn
  awk_out : List Char → ShellReturn
  lsof_out : ShellReturn
  ps_comm : List Char → ShellReturn

/-- The `wmpid` value of `get_window_manager`
(`individual_stats.rs` lines 100-116): probe `fuser`, else `lsof`, else a
failed result with exit code 1. -/
def wayland_pid (env : WmEnv) : ShellReturn :=
  if env.has_fuser then
    if env.fuser_out.err_code = 0 then env.awk_out (trim env.fuser_out.stdout)
    else env.fuser_out
  else if env.has_lsof then env.lsof_out
  else { stdout := [], stderr := [], err_code := 1 }

/-- The Wayland-socket fallback of `get_window_manager`
(`individual_stats.rs` lines 99-125): when the socket-owner PID probe
succeeds, resolve the PID to its command name, otherwise return the
sentinel. -/
def wayland_fallback (env : WmEnv) : List Char :=
  if (wayland_pid env).err_code = 0 then
    trim (env.ps_comm (trim (wayland_pid env).stdout)).stdout
  else "None/Unknown".toList

/-- Mirrors `get_window_manager` (`individual_stats.rs` lines 78-126): the
Darwin allow-list first, then the `XDG_CURRENT_DESKTOP` probe, then the
Wayland-socket fallback. -/
def get_window_manager (env : WmEnv) : List Char :=
  if trim env.uname = "Darwin".toList then
    if env.pgrep_err "yabai".toList = 0 then "yabai".toList
    else if env.pgrep_err "Amethyst".toList = 0 then "Amethyst".toList
    else "aqua".toList
  else if env.xdg_desktop.err_code = 0 ∧ trim env.xdg_desktop.stdout ≠ [] then
    trim env.xdg_desktop.stdout
  else wayland_fallback env

/-- Mirrors Rust `str::lines`: split on newlines, dropping a final empty
piece produced by a trailing newline and stripping one trailing carriage
return per line; the empty string yields no lines at all. -/
def rust_lines (s : String) : List String :=
  if s = "" then []
  else
    let parts := s.splitOn "\n"
    let parts := if parts.getLast? = some "" then parts.dropLast else parts
    parts.map (fun l => if l.endsWith "\r" then l.dropRight 1 else l)

/-- The logo table of `get_logo` (`logo.rs` lines 30-48): the detected distro
id selects one of the statically included logo files (`files` maps a logo
file's name to its content); any other id yields the empty string. -/
def logo_content (files : String → String) (os_distro : String) : String :=
  match os_distro with
  | "alpine" => files "alpine"
  | "arch" => files "arch"
  | "artix" => files "artix"
  | "debian" => files "debian"
  | "endeavouros" => files "endeavour"
  | "fedora" => files "fedora"
  | "freebsd" => files "freebsd"
  | "gentoo" => files "gentoo"
  | "linuxmint" => files "mint"
  | "manjaro" => files "manjaro"
  | "macos" => files "apple"
  | "nixos" => files "nixos"
  | "nobara" => files "nobara"
  | "pop" => files "popos"
  | "raspbian" => files "rpi"
  | "ubuntu" => files "ubuntu"
  | _ => ""

/-- Mirrors Rust `str::split_whitespace`. -/
def split_whitespace (s : String) : List String :=
  (s.split Char.isWhitespace).filter (fun x => x ≠ "")

/-- Mirrors `str::parse::<u16>` composed with `unwrap`: `none` is the
panic. -/
def parse_u16 (s : String) : Option Nat :=
  match s.toNat? with
  | some n => if n < 65536 then some n else none
  | none => none

/-- The `Logo` struct of `logo.rs`. -/
structure Logo where
  rows : Nat
  cols : Nat
  content : List String
deriving DecidableEq

/-- Mirrors `get_logo` (`logo.rs` lines 19-61) from the detected distro id
on: look the id up in the logo table, take the first line of the logo file as
metadata and parse the row and column counts from it.  `none` models the
panic of an `unwrap` on a missing first line or a failed `u16` parse. -/
def get_logo (files : String → String) (os_distro : String) : Option Logo :=
  match rust_lines (logo_content files os_distro) with
  | [] => none
  | first_line :: rest =>
    match split_whitespace first_line with
    | r :: c :: _ =>
      match parse_u16 r, parse_u16 c with
      | some rows, some cols => some { rows := rows, cols := cols, content := rest }
      | _, _ => none
    | _ => none

theorem ip_lt_eq (a b : IpAddr) :
    (ip_cmp a b == Ordering.lt) = (a.is_ipv4 && b.is_ipv6) := by
  cases a <;> cases b <;> rfl

theorem is_ipv6_eq_not (a : IpAddr) : a.is_ipv6 = !a.is_ipv4 := by
  cases a <;> rfl

theorem insert_shift_skip (lt : α → α → Bool) (x : α) :
    ∀ rB rest : List α, (∀ y ∈ rB, lt x y = true) →
      insert_shift lt x (rB ++ rest) = rB ++ insert_shift lt x rest := by
  intro rB
  induction rB with
  | nil => intro rest _; simp
  | cons y ys ih =>
    intro rest h
    have hy : lt x y = true := h y (by simp)
    simp only [List.cons_append, insert_shift, hy, if_pos, List.append_eq]
    rw [ih rest (fun z hz => h z (by simp [hz]))]

theorem insert_shift_stop (lt : α → α → Bool) (x : α) (l : List α)
    (h : ∀ y t, l = y :: t → lt x y = false) :
    insert_shift lt x l = x :: l := by
  cases l with
  | nil => rfl
  | cons y t => simp [insert_shift, h y t rfl]

theorem step_partition (A B : List IpAddr) (x : IpAddr)
    (hA : ∀ a ∈ A, a.is_ipv4 = true) (hB : ∀ b ∈ B, b.is_ipv6 = true) :
    sort_step ip_cmp (A ++ B) x =
      if x.is_ipv4 then A ++ x :: B else A ++ B ++ [x] := by
  unfold sort_step
  cases hx : x.is_ipv4 with
  | true =>
    rw [List.reverse_append]
    rw [insert_shift_skip _ x B.reverse A.reverse
      (fun y hy => by
        have hy6 : y.is_ipv6 = true := hB y (List.mem_reverse.mp hy)
        rw [ip_lt_eq, hx, hy6]; rfl)]
    rw [insert_shift_stop _ x A.reverse
      (fun y t hyt => by
        have hy4 : y.is_ipv4 = true := hA y (by
          have : y ∈ A.reverse := by rw [hyt]; simp
          exact List.mem_reverse.mp this)
        rw [ip_lt_eq, is_ipv6_eq_not, hy4]
        simp)]
    simp
  | false =>
    rw [insert_shift_stop _ x ((A ++ B).reverse)
      (fun y t hyt => by rw [ip_lt_eq, hx]; rfl)]
    simp

theorem foldl_partition :
    ∀ (l A B : List IpAddr), (∀ a ∈ A, a.is_ipv4 = true) →
      (∀ b ∈ B, b.is_ipv6 = true) →
      l.foldl (sort_step ip_cmp) (A ++ B) =
        (A ++ l.filter IpAddr.is_ipv4) ++ (B ++ l.filter IpAddr.is_ipv6) := by
  intro l
  induction l with
  | nil => intro A B _ _; simp
  | cons x l ih =>
    intro A B hA hB
    rw [List.foldl_cons, step_partition A B x hA hB]
    cases hx : x.is_ipv4 with
    | true =>
      have hx6 : x.is_ipv6 = false := by rw [is_ipv6_eq_not, hx]; rfl
      rw [if_pos rfl]
      have : A ++ x :: B = (A ++ [x]) ++ B := by simp
      rw [this, ih (A ++ [x]) B
        (by intro a ha; rcases List.mem_append.mp ha with h | h
            · exact hA a h
            · simp at h; subst h; exact hx)
        hB]
      simp [List.filter_cons, hx, hx6]
    | false =>
      have hx6 : x.is_ipv6 = true := by rw [is_ipv6_eq_not, hx]; rfl
      rw [if_neg (by simp), List.append_assoc]
      rw [ih A (B ++ [x]) hA
        (by intro b hb; rcases List.mem_append.mp hb with h | h
            · exact hB b h
            · simp at h; subst h; exact hx6)]
      simp [List.filter_cons, hx, hx6]

theorem rust_sort_by_ip_eq (l : List IpAddr) :
    rust_sort_by ip_cmp l =
      l.filter IpAddr.is_ipv4 ++ l.filter IpAddr.is_ipv6 := by
  have h := foldl_partition l [] [] (by intro a ha; cases ha)
    (by intro b hb; cases hb)
  simpa [rust_sort_by] using h

theorem rust_sort_by_ip_perm (l : List IpAddr) :
    List.Perm (rust_sort_by ip_cmp l) l := by
  rw [rust_sort_by_ip_eq]
  have h : l.filter IpAddr.is_ipv6 = l.filter (fun x => !x.is_ipv4) := by
    apply List.filter_congr
    intro x _
    cases x <;> rfl
  rw [h]
  exact List.filter_append_perm _ l

theorem extract_ip_isSome (addrs : List IpAddr) :
    (extract_ip addrs).isSome = true ↔ addrs ≠ [] := by
  have hlen : (rust_sort_by ip_cmp addrs).length = addrs.length :=
    (rust_sort_by_ip_perm addrs).length_eq
  unfold extract_ip
  cases hs : rust_sort_by ip_cmp addrs with
  | nil =>
    rw [hs, List.length_nil] at hlen
    have he : addrs = [] := List.length_eq_zero.mp hlen.symm
    simp [he]
  | cons a rest =>
    have he : addrs ≠ [] := by
      intro he
      subst he
      simp [rust_sort_by] at hs
    simp [he]

theorem findSome?_eq_bind (f : α → Option β) :
    ∀ l : List α, l.findSome? f = (l.find? (fun x => (f x).isSome)).bind f := by
  intro l
  induction l with
  | nil => rfl
  | cons x l ih =>
    cases hfx : f x with
    | some b => simp [List.findSome?_cons, List.find?_cons, hfx]
    | none => simp [List.findSome?_cons, List.find?_cons, hfx, ih]

theorem find?_key_le (key : α → Nat) (p : α → Bool) :
    ∀ l : List α, List.Pairwise (fun a b => key a ≤ key b) l →
      ∀ a x, l.find? p = some a → x ∈ l → p x = true → key a ≤ key x := by
  intro l
  induction l with
  | nil => intro _ a x h; cases h
  | cons y l ih =>
    intro hp a x hfind hx hpx
    rcases List.pairwise_cons.mp hp with ⟨hy, hl⟩
    cases hpy : p y with
    | true =>
      rw [List.find?_cons_of_pos _ hpy] at hfind
      cases hfind
      rcases List.mem_cons.mp hx with rfl | hx'
      · exact Nat.le_refl _
      · exact hy x hx'
    | false =>
      rw [List.find?_cons_of_neg _ (by simp [hpy])] at hfind
      rcases List.mem_cons.mp hx with rfl | hx'
      · rw [hpx] at hpy; cases hpy
      · exact ih hl a x hfind hx' hpx

theorem priority_of_lo (name : List Char) (h : lower name = "lo".toList) :
    priority name = u32MAX := by
  unfold priority
  rw [h]
  rfl

theorem priority_lt_of_ne_lo (name : List Char) (h : lower name ≠ "lo".toList) :
    priority name < u32MAX := by
  unfold priority priority_score
  split_ifs <;> decide

theorem sorted_sort_by_priority (key : α → Nat) (l : List α) :
    List.Pairwise (fun a b => key a ≤ key b) (sort_by_priority key l) := by
  haveI : IsTotal α (fun a b => key a ≤ key b) := ⟨fun a b => Nat.le_total _ _⟩
  haveI : IsTrans α (fun a b => key a ≤ key b) :=
    ⟨fun a b c hab hbc => Nat.le_trans hab hbc⟩
  exact List.sorted_insertionSort _ l

theorem perm_sort_by_priority (key : α → Nat) (l : List α) :
    List.Perm (sort_by_priority key l) l :=
  List.perm_insertionSort _ l

theorem findSome?_of_find? (f : α → Option β) (l : List α) (a : α) (b : β)
    (h1 : l.find? (fun x => (f x).isSome) = some a) (h2 : f a = some b) :
    l.findSome? f = some b := by
  rw [findSome?_eq_bind, h1]
  simp [h2]

theorem starts_with_exists :
    ∀ p l : List Char, starts_with p l = true → ∃ t, l = p ++ t := by
  intro p
  induction p with
  | nil => intro l _; exact ⟨l, rfl⟩
  | cons a ps ih =>
    intro l h
    cases l with
    | nil => simp [starts_with] at h
    | cons b ss =>
      simp only [starts_with, Bool.and_eq_true, beq_iff_eq] at h
      obtain ⟨rfl, h2⟩ := h
      obtain ⟨t, rfl⟩ := ih ss h2
      exact ⟨t, rfl⟩

/-- C1: for every interface exposing both an IPv4 and an IPv6 address, the
address chosen from that interface is the IPv4 one: the address-family sort
puts all IPv4 addresses strictly before all IPv6 addresses, keeping addresses
of the same family in their original order; whenever an interface has any
IPv4 address, `extract_ip` picks an IPv4 address; and in the scenario with
interfaces lo = [127.0.0.1], wlan0 = [fe80::1, 10.0.0.5], tun0 = [10.8.0.2]
the result of `get_ip_addr` is "10.0.0.5". -/
theorem extract_ip_prefers_ipv4 :
    (∀ addrs : List IpAddr,
        rust_sort_by ip_cmp addrs =
          addrs.filter IpAddr.is_ipv4 ++ addrs.filter IpAddr.is_ipv6) ∧
    (∀ addrs : List IpAddr, (∃ a ∈ addrs, a.is_ipv4 = true) →
        ∃ b ∈ addrs, b.is_ipv4 = true ∧ extract_ip addrs = some b.to_string) ∧
    get_ip_addr [("lo".toList, [IpAddr.v4 "127.0.0.1"]),
        ("wlan0".toList, [IpAddr.v6 "fe80::1", IpAddr.v4 "10.0.0.5"]),
        ("tun0".toList, [IpAddr.v4 "10.8.0.2"])] = "10.0.0.5" := by
  refine ⟨rust_sort_by_ip_eq, ?_, by decide⟩
  intro addrs h
  obtain ⟨a, ha, ha4⟩ := h
  have hmem : a ∈ addrs.filter IpAddr.is_ipv4 := List.mem_filter.mpr ⟨ha, ha4⟩
  cases hfl : addrs.filter IpAddr.is_ipv4 with
  | nil => rw [hfl] at hmem; cases hmem
  | cons b t =>
    have hb : b ∈ addrs.filter IpAddr.is_ipv4 := by
      rw [hfl]; exact List.mem_cons_self b t
    rcases List.mem_filter.mp hb with ⟨hbmem, hb4⟩
    refine ⟨b, hbmem, hb4, ?_⟩
    unfold extract_ip
    rw [rust_sort_by_ip_eq, hfl]
    rfl

theorem extract_ip_prefers_ipv4_witness :
    ∃ b ∈ [IpAddr.v6 "fe80::1", IpAddr.v4 "10.0.0.5"], b.is_ipv4 = true ∧
      extract_ip [IpAddr.v6 "fe80::1", IpAddr.v4 "10.0.0.5"] = some b.to_string :=
  extract_ip_prefers_ipv4.2.1 [IpAddr.v6 "fe80::1", IpAddr.v4 "10.0.0.5"]
    ⟨IpAddr.v4 "10.0.0.5", by decide, by decide⟩

/-- C2: the spec demands that with only the loopback interface bound to
127.0.0.1 the selector answer "No Connection", and the source's own comment
says "Return the first non-loopback interface with an IP address"; but the
loop never skips the loopback interface, so on that input `get_ip_addr`
returns the loopback address itself. -/
theorem get_ip_addr_loopback_only :
    get_ip_addr [("lo".toList, [IpAddr.v4 "127.0.0.1"])] = "127.0.0.1" := by
  decide

/-- C3, counterexample: with the interfaces lo = [127.0.0.1] and
LO = [127.0.0.2], the interface named "LO" is distinct from "lo" and has a
bound address, yet the selector picks the interface named "lo" and returns
its address, because the code compares names case-insensitively. -/
theorem get_ip_addr_loopback_cex :
    get_ip_addr [("lo".toList, [IpAddr.v4 "127.0.0.1"]),
        ("LO".toList, [IpAddr.v4 "127.0.0.2"])] = "127.0.0.1" ∧
    selected_interface [("lo".toList, [IpAddr.v4 "127.0.0.1"]),
        ("LO".toList, [IpAddr.v4 "127.0.0.2"])] =
      some ("lo".toList, [IpAddr.v4 "127.0.0.1"]) ∧
    "LO".toList ≠ "lo".toList ∧
    ([IpAddr.v4 "127.0.0.2"] : List IpAddr) ≠ [] := by
  decide

/-- C3, amended: for every set of interfaces, if any interface whose
lowercased name is not "lo" has at least one bound address, then the address
returned by `get_ip_addr` is produced by an interface whose lowercased name
is not "lo". -/
theorem get_ip_addr_skips_loopback (networks : List (List Char × List IpAddr))
    (h : ∃ nw ∈ networks, lower nw.1 ≠ "lo".toList ∧ nw.2 ≠ []) :
    ∃ nw, selected_interface networks = some nw ∧ lower nw.1 ≠ "lo".toList ∧
      extract_ip nw.2 = some (get_ip_addr networks) := by
  obtain ⟨nw1, hmem, hname, haddr⟩ := h
  have hp1 : (extract_ip nw1.2).isSome = true := (extract_ip_isSome _).mpr haddr
  have hmem1 : nw1 ∈ sort_by_priority (fun nw => priority nw.1) networks :=
    (perm_sort_by_priority _ networks).mem_iff.mpr hmem
  have hsome : ((sort_by_priority (fun nw => priority nw.1) networks).find?
      (fun nw => (extract_ip nw.2).isSome)).isSome = true := by
    rw [List.find?_isSome]
    exact ⟨nw1, hmem1, hp1⟩
  obtain ⟨nw0, hfind⟩ := Option.isSome_iff_exists.mp hsome
  have hp0 : (extract_ip nw0.2).isSome = true := by
    have h0 := List.find?_some hfind
    exact h0
  have hle : priority nw0.1 ≤ priority nw1.1 :=
    find?_key_le (fun nw => priority nw.1) (fun nw => (extract_ip nw.2).isSome)
      _ (sorted_sort_by_priority _ networks) nw0 nw1 hfind hmem1 hp1
  have hlt : priority nw1.1 < u32MAX := priority_lt_of_ne_lo _ hname
  have hname0 : lower nw0.1 ≠ "lo".toList := by
    intro he
    have hmax := priority_of_lo nw0.1 he
    omega
  obtain ⟨ip, hip⟩ := Option.isSome_iff_exists.mp hp0
  have hfs : (sort_by_priority (fun nw => priority nw.1) networks).findSome?
      (fun nw => extract_ip nw.2) = some ip :=
    findSome?_of_find? _ _ nw0 ip hfind hip
  have hgs : get_ip_addr networks = ip := by
    unfold get_ip_addr
    rw [hfs]
  exact ⟨nw0, hfind, hname0, by rw [hgs]; exact hip⟩

theorem get_ip_addr_skips_loopback_witness :
    ∃ nw, selected_interface [("lo".toList, [IpAddr.v4 "127.0.0.1"]),
        ("eth0".toList, [IpAddr.v4 "192.168.1.5"])] = some nw ∧
      lower nw.1 ≠ "lo".toList ∧
      extract_ip nw.2 = some (get_ip_addr [("lo".toList, [IpAddr.v4 "127.0.0.1"]),
        ("eth0".toList, [IpAddr.v4 "192.168.1.5"])]) :=
  get_ip_addr_skips_loopback _
    ⟨("eth0".toList, [IpAddr.v4 "192.168.1.5"]), by decide, by decide, by decide⟩

/-- C6: the priority score computed from an interface name matches the
case-insensitive prefix table for every name — prefix "en" scores 0, "wl"
scores 1, "wwan" scores 2, the tunnel-family prefixes "tun", "tap", "wg" and
"vpn" score 1000, the Tailscale prefix scores `u32MAX - 1`, the
NetworkManager prefix "nm" scores 1001, the exact (lowercased) name "lo"
scores `u32MAX`, and every other name scores the default 69 — and
`get_ip_addr` sorts the interfaces ascending by this score, keeping tied
interfaces in enumeration order. -/
theorem priority_table :
    (∀ name, starts_with "en".toList (lower name) = true → priority name = 0) ∧
    (∀ name, starts_with "wl".toList (lower name) = true → priority name = 1) ∧
    (∀ name, starts_with "wwan".toList (lower name) = true → priority name = 2) ∧
    (∀ name, starts_with "tun".toList (lower name) = true → priority name = 1000) ∧
    (∀ name, starts_with "tap".toList (lower name) = true → priority name = 1000) ∧
    (∀ name, starts_with "wg".toList (lower name) = true → priority name = 1000) ∧
    (∀ name, starts_with "vpn".toList (lower name) = true → priority name = 1000) ∧
    (∀ name, starts_with "tailscale".toList (lower name) = true →
        priority name = u32MAX - 1) ∧
    (∀ name, starts_with "nm".toList (lower name) = true → priority name = 1001) ∧
    (∀ name, lower name = "lo".toList → priority name = u32MAX) ∧
    (∀ name, starts_with "en".toList (lower name) = false →
        starts_with "wl".toList (lower name) = false →
        starts_with "wwan".toList (lower name) = false →
        starts_with "tailscale".toList (lower name) = false →
        starts_with "tun".toList (lower name) = false →
        starts_with "tap".toList (lower name) = false →
        starts_with "wg".toList (lower name) = false →
        starts_with "vpn".toList (lower name) = false →
        starts_with "nm".toList (lower name) = false →
        lower name ≠ "lo".toList → priority name = 69) ∧
    (∀ networks : List (List Char × List IpAddr),
        List.Pairwise (fun a b => priority a.1 ≤ priority b.1)
          (sort_by_priority (fun nw => priority nw.1) networks) ∧
        List.Perm (sort_by_priority (fun nw => priority nw.1) networks) networks) := by
  refine ⟨?_, ?_, ?_, ?_, ?_, ?_, ?_, ?_, ?_, priority_of_lo, ?_, ?_⟩
  · intro name h
    obtain ⟨t, ht⟩ := starts_with_exists _ _ h
    unfold priority
    rw [ht]
    rfl
  · intro name h
    obtain ⟨t, ht⟩ := starts_with_exists _ _ h
    unfold priority
    rw [ht]
    rfl
  · intro name h
    obtain ⟨t, ht⟩ := starts_with_exists _ _ h
    unfold priority
    rw [ht]
    rfl
  · intro name h
    obtain ⟨t, ht⟩ := starts_with_exists _ _ h
    unfold priority
    rw [ht]
    rfl
  · intro name h
    obtain ⟨t, ht⟩ := starts_with_exists _ _ h
    unfold priority
    rw [ht]
    rfl
  · intro name h
    obtain ⟨t, ht⟩ := starts_with_exists _ _ h
    unfold priority
    rw [ht]
    rfl
  · intro name h
    obtain ⟨t, ht⟩ := starts_with_exists _ _ h
    unfold priority
    rw [ht]
    rfl
  · intro name h
    obtain ⟨t, ht⟩ := starts_with_exists _ _ h
    unfold priority
    rw [ht]
    rfl
  · intro name h
    obtain ⟨t, ht⟩ := starts_with_exists _ _ h
    unfold priority
    rw [ht]
    rfl
  · intro name h1 h2 h3 h4 h5 h6 h7 h8 h9 h10
    unfold priority priority_score
    simp only [h1, h2, h3, h4, h5, h6, h7, h8, h9]
    simp only [Bool.false_eq_true, if_false]
    exact if_neg h10
  · intro networks
    exact ⟨sorted_sort_by_priority _ networks, perm_sort_by_priority _ networks⟩

theorem priority_table_witness :
    priority "enp3s0".toList = 0 ∧ priority "tailscale0".toList = u32MAX - 1 ∧
    priority "LO".toList = u32MAX ∧ priority "docker0".toList = 69 :=
  ⟨priority_table.1 _ (by decide),
   priority_table.2.2.2.2.2.2.2.1 _ (by decide),
   priority_table.2.2.2.2.2.2.2.2.2.1 _ (by decide),
   priority_table.2.2.2.2.2.2.2.2.2.2.1 _ (by decide) (by decide) (by decide)
     (by decide) (by decide) (by decide) (by decide) (by decide) (by decide)
     (by decide)⟩

theorem get_terminal_fuel (t : ProcTable) (depth : Int → Nat)
    (h : ∀ p : Int, ends_with "sh".toList (trim (t.comm p)) = true →
      depth (next_pid t p) < depth p) :
    ∀ (fuel : Nat) (pid : Int), depth pid < fuel →
      ∃ s, get_terminal t fuel pid = some s := by
  intro fuel
  induction fuel with
  | zero => intro pid hp; exact absurd hp (Nat.not_lt_zero _)
  | succ f ih =>
    intro pid hp
    by_cases hs : ends_with "sh".toList (trim (t.comm pid)) = true
    · have h2 : depth (next_pid t pid) < f :=
        Nat.lt_of_lt_of_le (h pid hs) (Nat.lt_succ_iff.mp hp)
      obtain ⟨s, hwalk⟩ := ih (next_pid t pid) h2
      have hs' : ends_with ['s', 'h'] (trim (t.comm pid)) = true := hs
      exact ⟨s, by simp [get_terminal, hs', hwalk]⟩
    · have hs' : ends_with ['s', 'h'] (trim (t.comm pid)) = false :=
        Bool.not_eq_true _ ▸ eq_false_of_ne_true hs
      exact ⟨trim (t.comm pid), by simp [get_terminal, hs']⟩

/-- C4: the ancestry walk of `get_terminal` terminates on every finite
process tree, within depth-many loop steps: a parse failure of a parent-PID
lookup substitutes PID 1 as the next candidate, and whenever a depth measure
decreases across every shell-named step (the finite-process-tree assumption),
the walk finishes with an answer using at most `depth pid` loop iterations
plus the final check. -/
theorem get_terminal_terminates :
    (∀ (t : ProcTable) (p : Int), parse_int (trim (t.ppid p)) = none →
        next_pid t p = 1) ∧
    (∀ (t : ProcTable) (depth : Int → Nat) (pid : Int),
        (∀ p : Int, ends_with "sh".toList (trim (t.comm p)) = true →
          depth (next_pid t p) < depth p) →
        ∃ s, get_terminal t (depth pid + 1) pid = some s) := by
  constructor
  · intro t p h
    unfold next_pid
    rw [h]
    rfl
  · intro t depth pid h
    exact get_terminal_fuel t depth h (depth pid + 1) pid (Nat.lt_succ_self _)

theorem get_terminal_terminates_witness :
    ∃ s, get_terminal
        ⟨fun p => if p = 100 then "bash".toList else "tmux".toList,
         fun _ => "oops".toList⟩
        ((fun p : Int => if p = 100 then 1 else 0) 100 + 1) 100 = some s :=
  get_terminal_terminates.2
    ⟨fun p => if p = 100 then "bash".toList else "tmux".toList,
     fun _ => "oops".toList⟩
    (fun p : Int => if p = 100 then 1 else 0) 100
    (by
      intro p hp
      by_cases e : p = 100
      · subst e; decide
      · exfalso
        have hc : (ProcTable.mk
            (fun p => if p = 100 then "bash".toList else "tmux".toList)
            (fun _ => "oops".toList)).comm p = "tmux".toList := if_neg e
        rw [hc] at hp
        exact absurd hp (by decide))

/-- C8: `get_terminal` starts at the given (immediate-parent) PID; whenever
the candidate\'s trimmed command name does not end in "sh" it returns that
name at once, whenever it does end in "sh" it moves to the parent PID and
continues with one unit of fuel consumed; and on the ancestry chain
pid 100 = "bash" → pid 50 = "zsh" → pid 10 = "tmux" it returns "tmux". -/
theorem get_terminal_walk :
    (∀ (t : ProcTable) (fuel : Nat) (pid : Int),
        (ends_with "sh".toList (trim (t.comm pid)) = false →
          get_terminal t (fuel + 1) pid = some (trim (t.comm pid))) ∧
        (ends_with "sh".toList (trim (t.comm pid)) = true →
          get_terminal t (fuel + 1) pid = get_terminal t fuel (next_pid t pid))) ∧
    get_terminal
      ⟨fun p => if p = 100 then "bash".toList else if p = 50 then "zsh".toList
          else if p = 10 then "tmux".toList else [],
       fun p => if p = 100 then "50".toList else if p = 50 then "10".toList
          else []⟩
      3 100 = some "tmux".toList := by
  constructor
  · intro t fuel pid
    constructor
    · intro h
      have h' : ends_with ['s', 'h'] (trim (t.comm pid)) = false := h
      simp [get_terminal, h']
    · intro h
      have h' : ends_with ['s', 'h'] (trim (t.comm pid)) = true := h
      simp [get_terminal, h']
  · decide

theorem get_terminal_walk_witness :
    get_terminal
      ⟨fun p => if p = 100 then "bash".toList else if p = 50 then "zsh".toList
          else if p = 10 then "tmux".toList else [],
       fun p => if p = 100 then "50".toList else if p = 50 then "10".toList
          else []⟩
      1 10 = some "tmux".toList :=
  ((get_terminal_walk.1 _ 0 10).1 (by decide)).trans (by decide)

/-- C10: whenever the immediate parent\'s trimmed command name does not end in
"sh", `get_terminal` answers in zero loop iterations with exactly the string
`get_shell` returns, whatever fuel remains. -/
theorem get_terminal_eq_get_shell :
    ∀ (t : ProcTable) (p : Int), ends_with "sh".toList (trim (t.comm p)) = false →
      ∀ fuel : Nat, get_terminal t (fuel + 1) p = some (get_shell t p) := by
  intro t p h fuel
  have h' : ends_with ['s', 'h'] (trim (t.comm p)) = false := h
  simp [get_terminal, get_shell, h']

theorem get_terminal_eq_get_shell_witness :
    get_terminal ⟨fun _ => "alacritty".toList, fun _ => "1".toList⟩ 5 7 =
      some (get_shell ⟨fun _ => "alacritty".toList, fun _ => "1".toList⟩ 7) :=
  get_terminal_eq_get_shell ⟨fun _ => "alacritty".toList, fun _ => "1".toList⟩ 7
    (by decide) 4

theorem gwm_xdg (env : WmEnv) (h1 : trim env.uname ≠ "Darwin".toList)
    (h2 : env.xdg_desktop.err_code = 0) (h3 : trim env.xdg_desktop.stdout ≠ []) :
    get_window_manager env = trim env.xdg_desktop.stdout := by
  unfold get_window_manager
  rw [if_neg h1, if_pos ⟨h2, h3⟩]

/-- C5: on a non-Darwin host, when the `XDG_CURRENT_DESKTOP` probe succeeds
and its trimmed output is non-empty, `get_window_manager` returns exactly
that trimmed value; the result then does not depend on any of the
Wayland-socket fields of the environment (the socket strategy is never
consulted); and when the probe succeeds but the trimmed value is empty the
variable counts as absent and the Wayland fallback decides the result. -/
theorem get_window_manager_xdg :
    (∀ env : WmEnv, trim env.uname ≠ "Darwin".toList →
        env.xdg_desktop.err_code = 0 → trim env.xdg_desktop.stdout ≠ [] →
        get_window_manager env = trim env.xdg_desktop.stdout) ∧
    (∀ (env : WmEnv) (hf hl : Bool) (fo lo : ShellReturn)
        (ao ps : List Char → ShellReturn),
        trim env.uname ≠ "Darwin".toList → env.xdg_desktop.err_code = 0 →
        trim env.xdg_desktop.stdout ≠ [] →
        get_window_manager
            { env with
                has_fuser := hf
                has_lsof := hl
                fuser_out := fo
                lsof_out := lo
                awk_out := ao
                ps_comm := ps } =
          get_window_manager env) ∧
    (∀ env : WmEnv, trim env.uname ≠ "Darwin".toList →
        env.xdg_desktop.err_code = 0 → trim env.xdg_desktop.stdout = [] →
        get_window_manager env = wayland_fallback env) := by
  refine ⟨gwm_xdg, ?_, ?_⟩
  · intro env hf hl fo lo ao ps h1 h2 h3
    have e1 := gwm_xdg
      { env with
          has_fuser := hf
          has_lsof := hl
          fuser_out := fo
          lsof_out := lo
          awk_out := ao
          ps_comm := ps } h1 h2 h3
    rw [e1, gwm_xdg env h1 h2 h3]
  · intro env h1 h2 h3
    have hc : ¬(env.xdg_desktop.err_code = 0 ∧ trim env.xdg_desktop.stdout ≠ []) := by
      rintro ⟨_, hc2⟩
      exact hc2 h3
    unfold get_window_manager
    rw [if_neg h1, if_neg hc]

theorem get_window_manager_xdg_witness :
    get_window_manager
      ⟨"Linux".toList, fun _ => 1, ⟨"KDE".toList, [], 0⟩, true, true,
        ⟨"123".toList, [], 0⟩, fun s => ⟨s, [], 0⟩, ⟨"123".toList, [], 0⟩,
        fun _ => ⟨"sway".toList, [], 0⟩⟩ = "KDE".toList :=
  (get_window_manager_xdg.1 _ (by decide) (by decide) (by decide)).trans (by decide)

/-- C7: `get_window_manager` cannot fail: it is a total function into
strings, and when every strategy is exhausted — the host is not Darwin, the
desktop-variable probe fails or yields an empty value, and the Wayland
socket-owner probe fails — it returns exactly the sentinel "None/Unknown";
in particular with neither `fuser` nor `lsof` available the socket probe
fails by construction with exit code 1. -/
theorem get_window_manager_sentinel :
    (∀ env : WmEnv, trim env.uname ≠ "Darwin".toList →
        (env.xdg_desktop.err_code ≠ 0 ∨ trim env.xdg_desktop.stdout = []) →
        (wayland_pid env).err_code ≠ 0 →
        get_window_manager env = "None/Unknown".toList) ∧
    (∀ env : WmEnv, env.has_fuser = false → env.has_lsof = false →
        (wayland_pid env).err_code = 1) := by
  constructor
  · intro env h1 h2 h3
    have hc : ¬(env.xdg_desktop.err_code = 0 ∧ trim env.xdg_desktop.stdout ≠ []) := by
      rintro ⟨hc1, hc2⟩
      rcases h2 with h2 | h2
      · exact h2 hc1
      · exact hc2 h2
    unfold get_window_manager wayland_fallback
    rw [if_neg h1, if_neg hc, if_neg h3]
  · intro env hf hl
    unfold wayland_pid
    rw [if_neg (by simp [hf]), if_neg (by simp [hl])]

theorem get_window_manager_sentinel_witness :
    get_window_manager
      ⟨"Linux".toList, fun _ => 1, ⟨[], [], 1⟩, false, false,
        ⟨[], [], 1⟩, fun s => ⟨s, [], 0⟩, ⟨[], [], 1⟩,
        fun _ => ⟨[], [], 1⟩⟩ = "None/Unknown".toList :=
  get_window_manager_sentinel.1 _ (by decide) (Or.inl (by decide)) (by decide)

/-- C9: for every detected distro id outside the logo table the logo string
is empty and so has no first metadata line; `get_logo` then panics on the
`unwrap` of that missing line (modelled as `none`) instead of degrading to a
default logo or a sentinel. -/
theorem get_logo_unknown_distro (files : String → String) (d : String)
    (h : d ∉ ["alpine", "arch", "artix", "debian", "endeavouros", "fedora",
      "freebsd", "gentoo", "linuxmint", "manjaro", "macos", "nixos", "nobara",
      "pop", "raspbian", "ubuntu"]) :
    get_logo files d = none := by
  have hc : logo_content files d = "" := by
    unfold logo_content
    split <;> simp_all
  unfold get_logo
  rw [hc]
  rfl

theorem get_logo_unknown_distro_witness :
    get_logo (fun _ => "") "slackware" = none :=
  get_logo_unknown_distro (fun _ => "") "slackware" (by decide)
